import Mathlib

/-!
Shallow embedding of the libmangal metadata-resolution and chapter-download
pipeline (Go), for verifying the natural-language specification against the
source.  Effects (provider calls, filesystem, writers) are modelled by
explicit state passing; Go errors become `Except Err`; Go machine integers
are modelled as `Int`/`Nat` (no overflow is relevant to any property below).
-/

namespace Libmangal

abbrev Err := String

/-! ## metadata/metadata.go : core metadata value types -/

/-- `metadata.Date` (year, month, day); the Go zero value is `⟨0,0,0⟩`. -/
structure Date where
  year : Int
  month : Int
  day : Int
deriving DecidableEq, Repr

/-- `metadata.Status` is a Go string type; constants below. -/
abbrev Status := String

def StatusFinished : Status := "FINISHED"
def StatusReleasing : Status := "RELEASING"
def StatusNotYetReleased : Status := "NOT_YET_RELEASED"
def StatusCancelled : Status := "CANCELLED"
def StatusHiatus : Status := "HIATUS"

/-- `metadata.IDSource` is a Go `uint8`; modelled as `Nat` so that the
`default` branch of the Go `switch` (values outside 1..6) is representable. -/
abbrev IDSource := Nat

abbrev IDSourceProvider : IDSource := 1
abbrev IDSourceAnilist : IDSource := 2
abbrev IDSourceMyAnimeList : IDSource := 3
abbrev IDSourceKitsu : IDSource := 4
abbrev IDSourceMangaUpdates : IDSource := 5
abbrev IDSourceAnimePlanet : IDSource := 6

/-- `metadata.ID`: raw string id, source enum, short provider code. -/
structure ID where
  IDRaw : String
  IDSource : IDSource
  IDCode : String
deriving DecidableEq, Repr

/-- Digits-only accumulator of Go's `strconv.Atoi` core: every remaining
character must be a decimal digit. -/
def parseDigits : List Char → Nat → Option Nat
  | [], acc => some acc
  | c :: cs, acc =>
    if c.isDigit then parseDigits cs (acc * 10 + (c.toNat - '0'.toNat)) else none

/-- `strconv.Atoi`: optional sign, then one or more decimal digits
(overflow is irrelevant here, so the value is an unbounded `Int`). -/
def atoi (s : String) : Option Int :=
  match s.toList with
  | [] => none
  | '+' :: cs => if cs = [] then none else (parseDigits cs 0).map Int.ofNat
  | '-' :: cs => if cs = [] then none else (parseDigits cs 0).map (fun n => -(n : Int))
  | cs => (parseDigits cs 0).map Int.ofNat

/-- `ID.validate` from metadata/metadata.go: code must be non-empty; then a
switch on the source: 0 rejected, Provider accepted, the four numeric
sources require `Atoi` success with a value ≥ 1, AnimePlanet only requires
a non-empty raw id, anything else is rejected. -/
def ID.validate (id : ID) : Except Err Unit :=
  if id.IDCode = "" then .error "IDCode must be non-empty"
  else if id.IDSource = 0 then .error "IDSource must be non-zero"
  else if id.IDSource = IDSourceProvider then .ok ()
  else if id.IDSource = IDSourceAnilist ∨ id.IDSource = IDSourceMyAnimeList
      ∨ id.IDSource = IDSourceKitsu ∨ id.IDSource = IDSourceMangaUpdates then
    match atoi id.IDRaw with
    | none => .error "ID must be an integer"
    | some i =>
      if i < 1 then .error "ID must be a non-zero positive integer" else .ok ()
  else if id.IDSource = IDSourceAnimePlanet then
    if id.IDRaw = "" then .error "AnimePlanet ID must be non-empty" else .ok ()
  else .error "unexpected IDsource"

/-- The `metadata.Metadata` interface, restricted to the methods the
embedded operations inspect (`String`, `Title`, `Authors`, `StartDate`,
`Status`, `ID`, `ExtraIDs`); a value of this record plays the role of one
interface value. -/
structure MetadataRecord where
  str : String
  title : String
  authors : List String
  startDate : Date
  status : Status
  id : ID
  extraIDs : List ID
deriving DecidableEq, Repr

/-- The `for _, id := range m.ExtraIDs()` loop of `metadata.Validate`. -/
def validateExtraIDs : List ID → Except Err Unit
  | [] => .ok ()
  | id :: rest =>
    match id.validate with
    | .error e => .error ("one of the ExtraIDs is invalid: " ++ e)
    | .ok _ => validateExtraIDs rest

/-- `metadata.Validate`: nil check, then String/Title/Authors/StartDate/
Status checks, then primary-ID and extra-ID validation.  A Go nil
interface is `none`. -/
def Validate : Option MetadataRecord → Except Err Unit
  | none => .error "Metadata is nil"
  | some m =>
    if m.str = "" then .error "String representation must be non-empty"
    else if m.title = "" then .error "Title must be non-empty"
    else if m.authors.length = 0 then .error "Authors must contain at least one author"
    else if m.startDate = ⟨0, 0, 0⟩ then .error "StartDate must be non-zero"
    else if m.status = "" then .error "Status must be non-empty"
    else
      match m.id.validate with
      | .error e => .error e
      | .ok _ => validateExtraIDs m.extraIDs

/-! ## mangadata/metadata.go : generic provider metadata -/

namespace Mangadata

/-- `mangadata.Metadata`, restricted to the three title fields that
`Title()` inspects. -/
structure Metadata where
  EnglishTitle : String
  RomajiTitle : String
  NativeTitle : String
deriving DecidableEq, Repr

/-- `mangadata.Metadata.Title`: English title if non-empty, else Romaji if
non-empty, else Native. -/
def Metadata.Title (m : Metadata) : String :=
  if m.EnglishTitle ≠ "" then m.EnglishTitle
  else if m.RomajiTitle ≠ "" then m.RomajiTitle
  else m.NativeTitle

end Mangadata

/-! ## ProviderWithCache (metadata/cache store + wrapper)

The gokv key-value buckets are modelled as in-memory association lists
(`Set` conses a fresh entry in front, so `lookup` sees the most recent
write, matching the store's overwrite semantics).  Cache get/set errors —
which the Go code wraps and propagates — cannot occur in this in-memory
model; the claims below all assume their absence. -/

/-- Go strings, where the cache layer computes on them (trim, slice,
length), are modelled as character lists; Go indexes bytes where this
indexes characters, which coincide on ASCII input. -/
abbrev GoStr := List Char

/-- Shorthand to write a `GoStr` from a string literal. -/
def gs (s : String) : GoStr := s.toList

/-- `strings.TrimSpace`: drop whitespace from both ends. -/
def trimSpace (s : GoStr) : GoStr :=
  ((s.dropWhile Char.isWhitespace).reverse.dropWhile Char.isWhitespace).reverse

/-- The three cache buckets of one `ProviderWithCache`:
query→[ids], id→Metadata and title→id. -/
structure Store where
  queryIDs : List (GoStr × List Int)
  metaCache : List (Int × MetadataRecord)
  titleID : List (GoStr × Int)

def Store.empty : Store := ⟨[], [], []⟩

def Store.getQueryIDs (s : Store) (query : GoStr) : Option (List Int) :=
  s.queryIDs.lookup query

def Store.setQueryIDs (s : Store) (query : GoStr) (ids : List Int) : Store :=
  { s with queryIDs := (query, ids) :: s.queryIDs }

def Store.getMeta (s : Store) (id : Int) : Option MetadataRecord :=
  s.metaCache.lookup id

def Store.setMeta (s : Store) (id : Int) (meta : MetadataRecord) : Store :=
  { s with metaCache := (id, meta) :: s.metaCache }

def Store.getTitleID (s : Store) (title : GoStr) : Option Int :=
  s.titleID.lookup title

def Store.setTitleID (s : Store) (title : GoStr) (id : Int) : Store :=
  { s with titleID := (title, id) :: s.titleID }

/-- The wrapped metadata provider (deterministic): `SearchByID` yields
(Metadata, found) or an error, `Search` yields a ranked result list or an
error. -/
structure Provider where
  searchByID : Int → Except Err (Option MetadataRecord)
  search : GoStr → Except Err (List MetadataRecord)

/-- State of one `ProviderWithCache`: the cache store, plus two counters
instrumenting the provider round-trips (the call-counting stub provider of
the spec's cache-correctness test). -/
structure PWCState where
  store : Store
  searchCalls : Nat
  byIDCalls : Nat

/-- `ProviderWithCache.SearchByID`: id→Metadata cache first; on a miss
delegate to the provider and memoize only a positive result. -/
def ProviderWithCache.SearchByID (prov : Provider) (st : PWCState) (id : Int) :
    (Except Err (Option MetadataRecord)) × PWCState :=
  match st.store.getMeta id with
  | some meta => (.ok (some meta), st)
  | none =>
    let st1 : PWCState := { st with byIDCalls := st.byIDCalls + 1 }
    match prov.searchByID id with
    | .error e => (.error e, st1)
    | .ok none => (.ok none, st1)
    | .ok (some meta) =>
      (.ok (some meta), { st1 with store := st1.store.setMeta id meta })

/-- The cache-hit loop of `ProviderWithCache.Search`: resolve each cached
id through `SearchByID`, appending only the found ones. -/
def searchCachedIDs (prov : Provider) :
    List Int → PWCState → (Except Err (List MetadataRecord)) × PWCState
  | [], st => (.ok [], st)
  | id :: rest, st =>
    match ProviderWithCache.SearchByID prov st id with
    | (.error e, st') => (.error e, st')
    | (.ok none, st') => searchCachedIDs prov rest st'
    | (.ok (some meta), st') =>
      match searchCachedIDs prov rest st' with
      | (.error e, st'') => (.error e, st'')
      | (.ok metas, st'') => (.ok (meta :: metas), st'')

/-- The cache-miss loop of `ProviderWithCache.Search`: parse each result's
raw id with `strconv.Atoi`, store id→Metadata, and collect the ids in
order; a parse failure aborts (the store writes made so far persist). -/
def storeSearchResults (store : Store) :
    List MetadataRecord → (Except Err (List Int)) × Store
  | [] => (.ok [], store)
  | meta :: rest =>
    match atoi meta.id.IDRaw with
    | none => (.error "invalid id syntax", store)
    | some id =>
      match storeSearchResults (store.setMeta id meta) rest with
      | (.error e, store') => (.error e, store')
      | (.ok ids, store') => (.ok (id :: ids), store')

/-- `ProviderWithCache.Search`: query→[ids] cache first (resolving each id
through `SearchByID`); on a miss delegate to the provider, store each
returned item's id→Metadata, then store query→[ids]. -/
def ProviderWithCache.Search (prov : Provider) (st : PWCState) (query : GoStr) :
    (Except Err (List MetadataRecord)) × PWCState :=
  match st.store.getQueryIDs query with
  | some ids => searchCachedIDs prov ids st
  | none =>
    let st1 : PWCState := { st with searchCalls := st.searchCalls + 1 }
    match prov.search query with
    | .error e => (.error e, st1)
    | .ok metas =>
      match storeSearchResults st1.store metas with
      | (.error e, store') => (.error e, { st1 with store := store' })
      | (.ok ids, store') =>
        (.ok metas, { st1 with store := store'.setQueryIDs query ids })

/-- `ProviderWithCache.findClosest`: up to `tries` attempts of `Search`;
the first attempt with results yields its first (provider-ranked) result;
an empty attempt right-trims the whitespace-trimmed title by `step`
characters (by one character when at most `step` remain, aborting at
length ≤ 1).  Go string length/slicing is per byte; here per character —
identical on ASCII titles.  The `tries` loop counter is the fuel. -/
def ProviderWithCache.findClosest (prov : Provider) (step : Nat) :
    Nat → PWCState → GoStr → (Except Err (Option MetadataRecord)) × PWCState
  | 0, st, _ => (.ok none, st)
  | tries + 1, st, title =>
    match ProviderWithCache.Search prov st title with
    | (.error e, st') => (.error e, st')
    | (.ok (closest :: _), st') => (.ok (some closest), st')
    | (.ok [], st') =>
      let t := trimSpace title
      if t.length > step then
        ProviderWithCache.findClosest prov step tries st' (t.take (t.length - step))
      else if t.length > 1 then
        ProviderWithCache.findClosest prov step tries st' (t.take (t.length - 1))
      else (.ok none, st')

/-- Stub provider for the closest-match termination scenario: every search
comes back empty, every id lookup comes back not-found. -/
def emptyMetaProvider : Provider :=
  { searchByID := fun _ => .ok none, search := fun _ => .ok [] }

/-- A store whose query→[ids] bucket only ever holds empty id lists (holds
for the empty store, and is preserved while searching against
`emptyMetaProvider`). -/
def emptyQueryCache (s : Store) : Prop :=
  ∀ q ids, s.getQueryIDs q = some ids → ids = []

end Libmangal

namespace Libmangal

/-! ## client.go / client_download.go : chapter download pipeline

External effects (provider network calls, the pdfcpu import, the
series-json marshalling, context cancellation) are oracles in an `Env`
record; the two filesystems are explicit `FS` values; writers into the
in-memory staging file are an `OutStream` whose injected per-operation
failures model `io.Writer` errors. -/

/-- `Format`: the six download output formats. -/
inductive Format
  | pdf
  | tar
  | targz
  | zip
  | cbz
  | images
deriving DecidableEq, Repr

/-- `metadata.DownloadStatus` is a Go string type; constants below.  The
empty string is its Go zero value, returned by some error paths. -/
abbrev DownloadStatus := String

def DownloadStatusNew : DownloadStatus := "new"
def DownloadStatusSkip : DownloadStatus := "skip"
def DownloadStatusExists : DownloadStatus := "exists"
def DownloadStatusFailed : DownloadStatus := "failed"
def DownloadStatusMissingMetadata : DownloadStatus := "missing_metadata"
def DownloadStatusOverwritten : DownloadStatus := "overwritten"

def FilenameComicInfoXML : String := "ComicInfo.xml"
def FilenameSeriesJSON : String := "series.json"
def FilenameCoverJPG : String := "cover.jpg"
def FilenameBannerJPG : String := "banner.jpg"

/-- `metadata.DownloadedChapter` (the chapter number is a `float32` in Go;
it is copied around opaquely, so it is modelled as `Int`). -/
structure DownloadedChapter where
  number : Int
  title : String
  filename : String
  directory : String
  chapterStatus : DownloadStatus
  seriesJSONStatus : DownloadStatus
  comicInfoXMLStatus : DownloadStatus
  coverStatus : DownloadStatus
  bannerStatus : DownloadStatus
deriving DecidableEq, Repr

/-- The chapter fields the pipeline reads (`chapter.Info()`). -/
structure ChapterInfo where
  number : Int
  title : String
deriving DecidableEq, Repr

structure Chapter where
  info : ChapterInfo
deriving DecidableEq, Repr

/-- `mangadata.Manga` as the pipeline sees it: the mutable metadata slot. -/
structure Manga where
  metadata : Option MetadataRecord
deriving DecidableEq, Repr

/-- `mangadata.Page`; `preImage` is `some bytes` when the page already
implements `PageWithImage` (pre-populated image, no network call). -/
structure Page where
  extension : String
  preImage : Option (List Nat)
deriving DecidableEq, Repr

/-- `mangadata.PageWithImage`: a page together with its image bytes. -/
structure PageWithImage where
  page : Page
  image : List Nat
deriving DecidableEq, Repr

/-- `metadata.ComicInfoXML`, opaque to every claim: only its marshalled
payload matters here. -/
structure ComicInfoXML where
  payload : List Nat
deriving DecidableEq, Repr

structure ComicInfoXMLOptions where
  addDate : Bool
deriving DecidableEq, Repr

/-- `ComicInfoXML.Marshal`, modelled as the opaque payload (no claim
inspects the XML rendering). -/
def ComicInfoXML.marshal (ci : ComicInfoXML) (_opts : ComicInfoXMLOptions) : List Nat :=
  ci.payload

/-- Contents of one file in the modelled filesystem. -/
inductive FileData
  | pdfDoc (pages : List (List Nat))
  | archive (fmt : Format) (entries : List (String × List Nat))
  | image (bytes : List Nat)
  | raw (bytes : List Nat)
  | blank
deriving DecidableEq, Repr

/-- An afero filesystem: directories made so far and files by full path
(`lookup` sees the most recent `createFile`, matching truncate-create). -/
structure FS where
  dirs : List String
  files : List (String × FileData)
deriving DecidableEq, Repr

def FS.empty : FS := ⟨[], []⟩

instance : Inhabited FS := ⟨FS.empty⟩

instance : Inhabited DownloadedChapter := ⟨⟨0, "", "", "", "", "", "", "", ""⟩⟩

/-- `afero.Exists`: true for a directory or a file at the path. -/
def FS.pathExists (fs : FS) (p : String) : Bool :=
  fs.dirs.contains p || (fs.files.lookup p).isSome

def FS.mkdirAll (fs : FS) (p : String) : FS :=
  { fs with dirs := p :: fs.dirs }

def FS.createFile (fs : FS) (p : String) (d : FileData) : FS :=
  { fs with files := (p, d) :: fs.files }

/-- `filepath.Join` on the already-clean paths the pipeline produces. -/
def pathJoin (a b : String) : String := a ++ "/" ++ b

/-- `DownloadOptions` (fields the pipeline reads). -/
structure DownloadOptions where
  format : Format
  directory : String
  createProviderDir : Bool
  createMangaDir : Bool
  createVolumeDir : Bool
  strict : Bool
  skipIfExists : Bool
  searchMetadata : Bool
  downloadMangaCover : Bool
  downloadMangaBanner : Bool
  writeSeriesJSON : Bool
  skipSeriesJSONIfOngoing : Bool
  writeComicInfoXML : Bool
  comicInfoXMLOptions : ComicInfoXMLOptions
  imageTransformer : List Nat → Except Err (List Nat)

/-- The external effects of one download call: name templates, the
provider, the metadata search, the pdfcpu import, sidecar payload
downloads, the completion order of the concurrent page fetches, and the
context-cancellation flag polled in the transform loop. -/
structure Env where
  providerName : String
  mangaName : String
  volumeName : String
  chapterFilename : Format → String
  searchMetadataResult : Except Err (Option MetadataRecord)
  getPageImage : Page → Except Err (List Nat)
  chapterPages : Except Err (List Page)
  order : List Nat
  cancelled : Bool
  pdfImport : Except Err Unit
  comicInfoXMLResult : Except Err ComicInfoXML
  seriesJSONBytes : Except Err (List Nat)
  coverBytes : Except Err (List Nat)
  bannerBytes : Except Err (List Nat)

/-- `metadata.Validate(...) == nil` as a boolean, the form the pipeline
tests. -/
def validOK (m : Option MetadataRecord) : Bool :=
  match Validate m with
  | .ok _ => true
  | .error _ => false

/-- `manga.Metadata().Status()`; the pipeline only calls it after
validation guarantees the metadata is non-nil, so the `none` default is
unreachable there. -/
def Manga.statusOf (manga : Manga) : Status :=
  (manga.metadata.map MetadataRecord.status).getD ""

/-- `Client.DownloadPage`: a page that already carries image bytes is
returned as-is (no network call); otherwise `provider.GetPageImage`. -/
def DownloadPage (env : Env) (page : Page) : Except Err PageWithImage :=
  match page.preImage with
  | some image => .ok ⟨page, image⟩
  | none =>
    match env.getPageImage page with
    | .error e => .error e
    | .ok image => .ok ⟨page, image⟩

/-- The errgroup of `DownloadPagesInBatch`: goroutine bodies run in
completion order `order` (indices into `pages`); each writes its result
into its own slot; the first failure cancels the remaining ones and
becomes the error of `Wait`. -/
def runPool (env : Env) (pages : List Page) :
    List Nat → List (Option PageWithImage) → Except Err (List (Option PageWithImage))
  | [], slots => .ok slots
  | i :: rest, slots =>
    match pages[i]? with
    | none => runPool env pages rest slots
    | some page =>
      match DownloadPage env page with
      | .error e => .error e
      | .ok downloaded => runPool env pages rest (slots.set i (some downloaded))

/-- `Client.DownloadPagesInBatch`: empty input is an error; otherwise a
slice of `len(pages)` zero-valued (nil, here `none`) slots is filled by
the concurrent group; any failure yields the error alone. -/
def DownloadPagesInBatch (env : Env) (pages : List Page) (order : List Nat) :
    Except Err (List (Option PageWithImage)) :=
  if pages.length = 0 then .error "no pages provided for chapter"
  else runPool env pages order (List.replicate pages.length none)

/-- The per-page transform loop of `downloadChapter`: poll the
cancellation flag, then apply the image transformer.  A `none` slot (a
nil page) cannot occur after a successful `Wait`, every goroutine having
filled its slot; it is modelled as an explicit error. -/
def transformPages (transformer : List Nat → Except Err (List Nat)) (cancelled : Bool) :
    List (Option PageWithImage) → Except Err (List PageWithImage)
  | [] => .ok []
  | none :: _ => .error "nil page"
  | some p :: rest =>
    if cancelled then .error "context canceled"
    else
      match transformer p.image with
      | .error e => .error e
      | .ok image =>
        match transformPages transformer cancelled rest with
        | .error e => .error e
        | .ok rest' => .ok (⟨p.page, image⟩ :: rest')

/-- Zero-padded page sequence number: `fmt.Sprintf("%04d", n)`. -/
def pad4 (n : Nat) : String :=
  let s := toString n
  String.mk (List.replicate (4 - s.length) '0') ++ s

/-- Archive entry name of page `i` (0-based): `%04d` of `i+1` plus the
page's original extension. -/
def pageEntryName (i : Nat) (ext : String) : String :=
  pad4 (i + 1) ++ ext

/-- The `io.Writer` under an archive writer, with injected failures: the
`n`-th entry-create/header operation or the `n`-th entry-content write
may fail (writes into the in-memory staging file never do). -/
structure OutStream where
  createFail : Nat → Option Err
  writeFail : Nat → Option Err

/-- The `OutStream` backing a staging-filesystem file: never fails. -/
def memFileStream : OutStream := ⟨fun _ => none, fun _ => none⟩

/-- Outcome of the page loop of `saveCBZ`: an error from `CreateHeader`,
the early `return "", nil` taken when a page-content write fails (the
write error is discarded), or normal completion. -/
inductive CbzPagesResult
  | err (e : Err)
  | earlyOk (entries : List (String × List Nat))
  | done (entries : List (String × List Nat))
deriving DecidableEq, Repr

/-- The page loop of `Client.saveCBZ`. -/
def saveCBZPages (w : OutStream) :
    List PageWithImage → Nat → List (String × List Nat) → CbzPagesResult
  | [], _, acc => .done acc
  | page :: rest, i, acc =>
    match w.createFail i with
    | some e => .err e
    | none =>
      match w.writeFail i with
      | some _ => .earlyOk acc
      | none =>
        saveCBZPages w rest (i + 1) (acc ++ [(pageEntryName i page.page.extension, page.image)])

/-- `Client.saveCBZ`: store each page as an entry; then, when a
ComicInfoXML value is present, marshal it and store it as the final
`ComicInfo.xml` entry (status New), else status MissingMetadata.  A
failing page-content write is returned as success with the zero-valued
("") status. -/
def saveCBZ (pages : List PageWithImage) (w : OutStream) (comicInfoXml : Option ComicInfoXML)
    (options : ComicInfoXMLOptions) : Except Err (DownloadStatus × List (String × List Nat)) :=
  match saveCBZPages w pages 0 [] with
  | .err e => .error e
  | .earlyOk entries => .ok ("", entries)
  | .done entries =>
    match comicInfoXml with
    | none => .ok (DownloadStatusMissingMetadata, entries)
    | some ci =>
      match w.createFail pages.length with
      | some e => .error e
      | none =>
        match w.writeFail pages.length with
        | some e => .error e
        | none =>
          .ok (DownloadStatusNew, entries ++ [(FilenameComicInfoXML, ci.marshal options)])

/-- The page loop of `Client.saveZIP`: entry-create and entry-write errors
are both propagated. -/
def saveZIPPages (w : OutStream) :
    List PageWithImage → Nat → List (String × List Nat) → Except Err (List (String × List Nat))
  | [], _, acc => .ok acc
  | page :: rest, i, acc =>
    match w.createFail i with
    | some e => .error e
    | none =>
      match w.writeFail i with
      | some e => .error e
      | none =>
        saveZIPPages w rest (i + 1) (acc ++ [(pageEntryName i page.page.extension, page.image)])

def saveZIP (pages : List PageWithImage) (w : OutStream) :
    Except Err (List (String × List Nat)) :=
  saveZIPPages w pages 0 []

/-- The page loop of `Client.saveTAR`: `WriteHeader` and `Write` errors
are both propagated (header size/mode/time fields are not modelled). -/
def saveTARPages (w : OutStream) :
    List PageWithImage → Nat → List (String × List Nat) → Except Err (List (String × List Nat))
  | [], _, acc => .ok acc
  | page :: rest, i, acc =>
    match w.createFail i with
    | some e => .error e
    | none =>
      match w.writeFail i with
      | some e => .error e
      | none =>
        saveTARPages w rest (i + 1) (acc ++ [(pageEntryName i page.page.extension, page.image)])

def saveTAR (pages : List PageWithImage) (w : OutStream) :
    Except Err (List (String × List Nat)) :=
  saveTARPages w pages 0 []

/-- `Client.saveTARGZ` = `saveTAR` through a gzip writer; the gzip byte
wrapping is not modelled, the entry stream is identical. -/
def saveTARGZ (pages : List PageWithImage) (w : OutStream) :
    Except Err (List (String × List Nat)) :=
  saveTAR pages w

/-- The per-page `afero.WriteFile` loop of the Images format: one
sequence-numbered file per page under the chapter directory. -/
def writeImageFiles (dir : String) (fs : FS) : List PageWithImage → Nat → FS
  | [], _ => fs
  | p :: rest, i =>
    writeImageFiles dir
      (fs.createFile (pathJoin dir (pageEntryName i p.page.extension)) (.image p.image))
      rest (i + 1)

/-- `Client.downloadChapter`: fetch the page list, download all pages in
batch, transform them, then serialize in the chosen format into the file
at `path` on `fs` (the staging filesystem); only CBZ produces a
ComicInfo.xml status, every other format returns Skip. -/
def downloadChapter (env : Env) (manga : Manga) (chapter : Chapter) (fs : FS)
    (path : String) (options : DownloadOptions) : Except Err (DownloadStatus × FS) :=
  match env.chapterPages with
  | .error e => .error e
  | .ok pages =>
    match DownloadPagesInBatch env pages env.order with
    | .error e => .error e
    | .ok slots =>
      match transformPages options.imageTransformer env.cancelled slots with
      | .error e => .error e
      | .ok downloadedPages =>
        match options.format with
        | .pdf =>
          match env.pdfImport with
          | .error e => .error e
          | .ok _ =>
            .ok (DownloadStatusSkip,
              fs.createFile path (.pdfDoc (downloadedPages.map (fun p => p.image))))
        | .tar =>
          match saveTAR downloadedPages memFileStream with
          | .error e => .error e
          | .ok entries => .ok (DownloadStatusSkip, fs.createFile path (.archive .tar entries))
        | .targz =>
          match saveTARGZ downloadedPages memFileStream with
          | .error e => .error e
          | .ok entries => .ok (DownloadStatusSkip, fs.createFile path (.archive .targz entries))
        | .zip =>
          match saveZIP downloadedPages memFileStream with
          | .error e => .error e
          | .ok entries => .ok (DownloadStatusSkip, fs.createFile path (.archive .zip entries))
        | .cbz =>
          -- getComicInfoXML runs only with the flag set and valid metadata;
          -- on its error, Strict aborts, otherwise the Go zero value is kept.
          let ciRes : Except Err (Option ComicInfoXML) :=
            if options.writeComicInfoXML && validOK manga.metadata then
              match env.comicInfoXMLResult with
              | .error e => if options.strict then .error e else .ok (some ⟨[]⟩)
              | .ok ci => .ok (some ci)
            else .ok none
          match ciRes with
          | .error e => .error e
          | .ok ciOpt =>
            match saveCBZ downloadedPages memFileStream ciOpt options.comicInfoXMLOptions with
            | .error e => .error e
            | .ok (st, entries) => .ok (st, fs.createFile path (.archive .cbz entries))
        | .images =>
          .ok (DownloadStatusSkip, writeImageFiles path (fs.mkdirAll path) downloadedPages 0)

/-- The nested target directory of `downloadChapterWithMetadata`:
provider, manga and volume path segments, each toggled by its option. -/
def chapterDirectory (env : Env) (options : DownloadOptions) : String :=
  let dir := options.directory
  let dir := if options.createProviderDir then pathJoin dir env.providerName else dir
  let dir := if options.createMangaDir then pathJoin dir env.mangaName else dir
  if options.createVolumeDir then pathJoin dir env.volumeName else dir

/-- The series.json/cover/banner directory of
`downloadChapterWithMetadata`: the root directory, moved under the manga
directory (after the provider segment) only when `CreateMangaDir`. -/
def sidecarDirectory (env : Env) (options : DownloadOptions) : String :=
  if options.createMangaDir then
    let dir := options.directory
    let dir := if options.createProviderDir then pathJoin dir env.providerName else dir
    pathJoin dir env.mangaName
  else options.directory

/-- The chapter target path: nested directory plus templated,
format-suffixed chapter filename. -/
def chapterTargetPath (env : Env) (options : DownloadOptions) : String :=
  pathJoin (chapterDirectory env options) (env.chapterFilename options.format)

/-- One sidecar block of `downloadChapterWithMetadata` (series.json,
cover, banner share this shape): existence check against the caller's
filesystem, `Create` on the staging filesystem, then the payload write;
a write failure records status Failed, aborting only under Strict.  The
Go code sets status New before the write and overwrites with Failed on
error; the net statuses are mirrored. -/
def sidecarWrite (fs : FS) (existsFunc : String → Bool) (path : String)
    (fetch : Except Err (List Nat)) (strict : Bool) : Except Err (DownloadStatus × FS) :=
  if existsFunc path then .ok (DownloadStatusExists, fs)
  else
    let fs1 := fs.createFile path .blank
    match fetch with
    | .ok bytes => .ok (DownloadStatusNew, fs1.createFile path (.raw bytes))
    | .error e =>
      if strict then .error e
      else .ok (DownloadStatusFailed, fs1)

/-- The series.json block of `downloadChapterWithMetadata`: gated by
`WriteSeriesJSON` and, additionally, skipped when the work's status is
Releasing under `SkipSeriesJSONIfOngoing`. -/
def seriesJSONStep (env : Env) (options : DownloadOptions) (existsFunc : String → Bool)
    (manga : Manga) (seriesJSONDir : String) (dc : DownloadedChapter) (fs1 : FS) :
    Except Err (DownloadedChapter × FS) :=
  let skip := options.skipSeriesJSONIfOngoing && (manga.statusOf == StatusReleasing)
  if options.writeSeriesJSON && !skip then
    match sidecarWrite fs1 existsFunc (pathJoin seriesJSONDir FilenameSeriesJSON)
        env.seriesJSONBytes options.strict with
    | .error e => .error e
    | .ok (st, fs2) => .ok ({ dc with seriesJSONStatus := st }, fs2)
  else .ok (dc, fs1)

/-- The cover-image block of `downloadChapterWithMetadata`. -/
def coverStep (env : Env) (options : DownloadOptions) (existsFunc : String → Bool)
    (coverDir : String) (dc : DownloadedChapter) (fs2 : FS) :
    Except Err (DownloadedChapter × FS) :=
  if options.downloadMangaCover then
    match sidecarWrite fs2 existsFunc (pathJoin coverDir FilenameCoverJPG)
        env.coverBytes options.strict with
    | .error e => .error e
    | .ok (st, fs3) => .ok ({ dc with coverStatus := st }, fs3)
  else .ok (dc, fs2)

/-- The banner-image block of `downloadChapterWithMetadata`. -/
def bannerStep (env : Env) (options : DownloadOptions) (existsFunc : String → Bool)
    (bannerDir : String) (dc : DownloadedChapter) (fs3 : FS) :
    Except Err (DownloadedChapter × FS) :=
  if options.downloadMangaBanner then
    match sidecarWrite fs3 existsFunc (pathJoin bannerDir FilenameBannerJPG)
        env.bannerBytes options.strict with
    | .error e => .error e
    | .ok (st, fs4) => .ok ({ dc with bannerStatus := st }, fs4)
  else .ok (dc, fs3)

/-- The sidecar half of `downloadChapterWithMetadata`: with invalid
metadata all three sidecar statuses become MissingMetadata and the
function returns early; otherwise series.json, cover and banner run in
order. -/
def sidecarPhase (env : Env) (options : DownloadOptions) (existsFunc : String → Bool)
    (manga : Manga) (seriesJSONDir coverDir bannerDir : String)
    (dc : DownloadedChapter) (fs1 : FS) : Except Err (DownloadedChapter × FS) :=
  if !validOK manga.metadata then
    .ok ({ dc with
            seriesJSONStatus := DownloadStatusMissingMetadata
            coverStatus := DownloadStatusMissingMetadata
            bannerStatus := DownloadStatusMissingMetadata }, fs1)
  else
    match seriesJSONStep env options existsFunc manga seriesJSONDir dc fs1 with
    | .error e => .error e
    | .ok (dc2, fs2) =>
      match coverStep env options existsFunc coverDir dc2 fs2 with
      | .error e => .error e
      | .ok (dc3, fs3) => bannerStep env options existsFunc bannerDir dc3 fs3

/-- `Client.downloadChapterWithMetadata`: compute directories, make the
target directory, check chapter existence through `existsFunc` (which the
caller points at the real filesystem), write the chapter body unless it
exists and `SkipIfExists`, then run the sidecar phase.  All writes land
on `fs`, the staging filesystem. -/
def downloadChapterWithMetadata (env : Env) (manga : Manga) (chapter : Chapter) (fs : FS)
    (options : DownloadOptions) (existsFunc : String → Bool) :
    Except Err (DownloadedChapter × FS) :=
  let directory := chapterDirectory env options
  let seriesJSONDir := sidecarDirectory env options
  let coverDir := seriesJSONDir
  let bannerDir := seriesJSONDir
  let fs0 := fs.mkdirAll directory
  let chapterFilename := env.chapterFilename options.format
  let chapterPath := pathJoin directory chapterFilename
  let chapterExists := existsFunc chapterPath
  let downChap : DownloadedChapter :=
    { number := chapter.info.number
      title := chapter.info.title
      filename := chapterFilename
      directory := directory
      chapterStatus := DownloadStatusExists
      seriesJSONStatus := DownloadStatusSkip
      comicInfoXMLStatus := DownloadStatusSkip
      coverStatus := DownloadStatusSkip
      bannerStatus := DownloadStatusSkip }
  let bodyStep : Except Err (DownloadedChapter × FS) :=
    if !chapterExists || !options.skipIfExists then
      match downloadChapter env manga chapter fs0 chapterPath options with
      | .error e => .error e
      | .ok (ciXmlStatus, fs1) =>
        .ok ({ downChap with
                comicInfoXMLStatus := ciXmlStatus
                chapterStatus :=
                  if !options.skipIfExists then DownloadStatusOverwritten
                  else DownloadStatusNew }, fs1)
    else .ok (downChap, fs0)
  match bodyStep with
  | .error e => .error e
  | .ok (dc, fs1) =>
    sidecarPhase env options existsFunc manga seriesJSONDir coverDir bannerDir dc fs1

/-- Modelled from the spec: `mergeDirectories` is called by
`DownloadChapter` but its definition is not among the provided sources.
Spec: "the staged output tree is merged into the real destination
filesystem (directory-by-directory copy with a configured directory
permission mode)" — every directory and file of the staging tree is
copied over the destination (permission bits are not modelled). -/
def mergeDirectories (_modeDir : Nat) (dst : FS) (_dstDir : String) (src : FS)
    (_srcDir : String) : FS :=
  { dirs := src.dirs ++ dst.dirs, files := src.files ++ dst.files }

/-- `Client.DownloadChapter`: optionally replace the manga's metadata by a
fresh search (even with nil), abort under Strict when the metadata does
not validate, run `downloadChapterWithMetadata` against a freshly created
in-memory staging filesystem (existence checks still answered by the real
filesystem), and only on success merge the staging tree into the real
filesystem.  The pair returned is (result, the caller-visible
filesystem after the call). -/
def DownloadChapter (env : Env) (realFS : FS) (chapter : Chapter) (manga : Manga)
    (options : DownloadOptions) (modeDir : Nat) : (Except Err DownloadedChapter) × FS :=
  let mangaRes : Except Err Manga :=
    if options.searchMetadata then
      match env.searchMetadataResult with
      | .error e => .error e
      | .ok m => .ok { manga with metadata := m }
    else .ok manga
  match mangaRes with
  | .error e => (.error e, realFS)
  | .ok manga1 =>
    if !validOK manga1.metadata && options.strict then
      (.error "no valid metadata for manga", realFS)
    else
      match downloadChapterWithMetadata env manga1 chapter FS.empty options
          (fun path => realFS.pathExists path) with
      | .error e => (.error e, realFS)
      | .ok (downChap, tmpFS) =>
        (.ok downChap,
          mergeDirectories modeDir realFS options.directory tmpFS options.directory)

deriving instance DecidableEq for Except

/-- Concrete valid metadata record (raw id "7") used by witnesses. -/
def cachedMeta1 : MetadataRecord :=
  { str := "A (2000)", title := "A", authors := ["x"], startDate := ⟨2000, 1, 1⟩,
    status := StatusFinished,
    id := { IDRaw := "7", IDSource := IDSourceAnilist, IDCode := "al" }, extraIDs := [] }

/-- Concrete valid metadata record (raw id "42") used by witnesses. -/
def cachedMeta2 : MetadataRecord :=
  { str := "B (2001)", title := "B", authors := ["y"], startDate := ⟨2001, 2, 3⟩,
    status := StatusFinished,
    id := { IDRaw := "42", IDSource := IDSourceAnilist, IDCode := "al" }, extraIDs := [] }

/-! ## Theorems for the claims -/

/-- C1: whenever `DownloadChapter` returns an error, the caller-visible
filesystem after the call equals the filesystem before it (so it contains
no file or directory it did not contain before): every write of
`downloadChapterWithMetadata` targets the per-call staging filesystem,
and the real filesystem is only touched by `mergeDirectories`, which runs
after every prior step succeeded. -/
theorem C1_download_atomic (env : Env) (realFS : FS) (chapter : Chapter) (manga : Manga)
    (options : DownloadOptions) (modeDir : Nat) (e : Err)
    (h : (DownloadChapter env realFS chapter manga options modeDir).1 = .error e) :
    (DownloadChapter env realFS chapter manga options modeDir).2 = realFS := by
  simp only [DownloadChapter] at h ⊢
  cases hs : options.searchMetadata with
  | false =>
    simp only [hs, Bool.false_eq_true, if_false] at h ⊢
    cases hv : !validOK manga.metadata && options.strict with
    | true => simp [hv]
    | false =>
      simp only [hv, Bool.false_eq_true, if_false] at h ⊢
      cases hd : downloadChapterWithMetadata env manga chapter FS.empty options
          (fun path => realFS.pathExists path) with
      | error e' => simp [hd]
      | ok pair =>
        rw [hd] at h
        exact absurd h (by simp)
  | true =>
    simp only [hs, if_true] at h ⊢
    cases hm : env.searchMetadataResult with
    | error e' => simp [hm]
    | ok m =>
      simp only [hm] at h ⊢
      cases hv : !validOK ({ manga with metadata := m } : Manga).metadata && options.strict with
      | true => simp [hv]
      | false =>
        simp only [hv, Bool.false_eq_true, if_false] at h ⊢
        cases hd : downloadChapterWithMetadata env { manga with metadata := m } chapter
            FS.empty options (fun path => realFS.pathExists path) with
        | error e' => simp [hd]
        | ok pair =>
          rw [hd] at h
          exact absurd h (by simp)

/-- Environment for the atomicity witness: everything succeeds except the
series.json payload write. -/
def witnessEnv : Env :=
  { providerName := "prov"
    mangaName := "m"
    volumeName := "v"
    chapterFilename := fun _ => "ch1.cbz"
    searchMetadataResult := .ok (some cachedMeta1)
    getPageImage := fun _ => .ok [1, 2]
    chapterPages := .ok [⟨".png", none⟩]
    order := [0]
    cancelled := false
    pdfImport := .ok ()
    comicInfoXMLResult := .ok ⟨[9]⟩
    seriesJSONBytes := .error "disk full"
    coverBytes := .ok [5]
    bannerBytes := .ok [6] }

/-- Options for the atomicity witness: Strict with a series.json write. -/
def witnessOptions : DownloadOptions :=
  { format := .images
    directory := "root"
    createProviderDir := false
    createMangaDir := true
    createVolumeDir := false
    strict := true
    skipIfExists := true
    searchMetadata := false
    downloadMangaCover := false
    downloadMangaBanner := false
    writeSeriesJSON := true
    skipSeriesJSONIfOngoing := false
    writeComicInfoXML := false
    comicInfoXMLOptions := ⟨true⟩
    imageTransformer := fun b => .ok b }

/-- A non-empty caller-visible filesystem for the atomicity witness. -/
def witnessRealFS : FS := ⟨["root"], [("root/old.txt", .raw [0])]⟩

/-- C1 witness: with valid metadata, Strict set and the series.json
sidecar write failing, the whole call errors and the caller-visible
filesystem is exactly what it was. -/
theorem C1_download_atomic_witness :
    (DownloadChapter witnessEnv witnessRealFS ⟨⟨1, "ch"⟩⟩ ⟨some cachedMeta1⟩
      witnessOptions 493).2 = witnessRealFS :=
  C1_download_atomic witnessEnv witnessRealFS ⟨⟨1, "ch"⟩⟩ ⟨some cachedMeta1⟩
    witnessOptions 493 "disk full" (by decide)

/-- If some index scheduled in the pool has a failing download, the pool
errors (fail-fast), whatever the slots hold. -/
theorem runPool_error (env : Env) (pages : List Page) :
    ∀ (order : List Nat) (slots : List (Option PageWithImage)) (i : Nat) (p : Page) (e : Err),
    i ∈ order → pages[i]? = some p → DownloadPage env p = .error e →
    ∃ e', runPool env pages order slots = .error e' := by
  intro order
  induction order with
  | nil =>
    intro slots i p e hmem _ _
    exact absurd hmem (List.not_mem_nil i)
  | cons j rest ih =>
    intro slots i p e hmem hp hfail
    rcases List.mem_cons.mp hmem with heq | hmem'
    · subst heq
      rw [runPool]
      simp only [hp, hfail]
      exact ⟨e, rfl⟩
    · rw [runPool]
      cases hpj : pages[j]? with
      | none =>
        simp only [hpj]
        exact ih slots i p e hmem' hp hfail
      | some pj =>
        simp only [hpj]
        cases hdj : DownloadPage env pj with
        | error e2 =>
          simp only [hdj]
          exact ⟨e2, rfl⟩
        | ok v =>
          simp only [hdj]
          exact ih (slots.set j (some v)) i p e hmem' hp hfail

/-- C2: on a non-empty page list, if any single page's download fails,
`DownloadPagesInBatch` returns an error for every completion order
covering all pages — in this `Except` embedding the error alternative
carries no result slice, which is the Go `return nil, err`; and the empty
page list returns the usage error, never an empty success. -/
theorem C2_batch_failfast :
    (∀ (env : Env) (pages : List Page) (order : List Nat),
      order.Perm (List.range pages.length) →
      (∃ i, ∃ hi : i < pages.length, ∃ e, DownloadPage env (pages.get ⟨i, hi⟩) = .error e) →
      ∃ e', DownloadPagesInBatch env pages order = .error e') ∧
    (∀ (env : Env) (order : List Nat),
      DownloadPagesInBatch env [] order = .error "no pages provided for chapter") := by
  constructor
  · intro env pages order hperm ⟨i, hi, e, hfail⟩
    have hne : ¬pages.length = 0 := by omega
    have hmem : i ∈ order := hperm.mem_iff.mpr (List.mem_range.mpr hi)
    have hp : pages[i]? = some (pages.get ⟨i, hi⟩) := by
      simp [List.getElem?_eq_getElem, hi]
    obtain ⟨e', he'⟩ := runPool_error env pages order
      (List.replicate pages.length none) i (pages.get ⟨i, hi⟩) e hmem hp hfail
    exact ⟨e', by rw [DownloadPagesInBatch, if_neg hne]; exact he'⟩
  · intro env order
    rfl

/-- C2 witness: two pages, the second failing, completion order [1, 0]:
the batch errors; and the empty list errors. -/
theorem C2_batch_failfast_witness :
    (∃ e', DownloadPagesInBatch
      ⟨"prov", "m", "v", fun _ => "ch", .ok none,
        fun p => if p.extension = ".jpg" then .error "net down" else .ok [1],
        .ok [], [], false, .ok (), .ok ⟨[]⟩, .ok [], .ok [], .ok []⟩
      [⟨".png", none⟩, ⟨".jpg", none⟩] [1, 0] = .error e') ∧
    DownloadPagesInBatch
      ⟨"prov", "m", "v", fun _ => "ch", .ok none,
        fun p => if p.extension = ".jpg" then .error "net down" else .ok [1],
        .ok [], [], false, .ok (), .ok ⟨[]⟩, .ok [], .ok [], .ok []⟩
      [] [1, 0] = .error "no pages provided for chapter" := by
  obtain ⟨h1, h2⟩ := C2_batch_failfast
  refine ⟨h1 _ [⟨".png", none⟩, ⟨".jpg", none⟩] [1, 0] (by decide)
    ⟨1, by decide, "net down", by decide⟩, h2 _ [1, 0]⟩

/-- If every in-range download succeeds (page `i` yielding `f i`), the
pool succeeds and each scheduled slot `k` ends up holding `some (f k)`,
unscheduled slots keeping their previous value. -/
theorem runPool_ok (env : Env) (pages : List Page) (f : Nat → PageWithImage)
    (hall : ∀ i (hi : i < pages.length), DownloadPage env (pages.get ⟨i, hi⟩) = .ok (f i)) :
    ∀ (order : List Nat) (slots : List (Option PageWithImage)),
    (∀ i ∈ order, i < pages.length) → slots.length = pages.length →
    ∃ slots', runPool env pages order slots = .ok slots' ∧
      slots'.length = slots.length ∧
      (∀ k, k ∈ order → slots'[k]? = some (some (f k))) ∧
      (∀ k, k ∉ order → slots'[k]? = slots[k]?) := by
  intro order
  induction order with
  | nil =>
    intro slots _ _
    exact ⟨slots, rfl, rfl, fun k hk => absurd hk (List.not_mem_nil k), fun k _ => rfl⟩
  | cons j rest ih =>
    intro slots hin hlen
    have hj : j < pages.length := hin j (by simp)
    have hp : pages[j]? = some (pages.get ⟨j, hj⟩) := by
      simp [List.getElem?_eq_getElem, hj]
    obtain ⟨slots', heq, hlen', hmem, hnot⟩ := ih (slots.set j (some (f j)))
      (fun i hi => hin i (by simp [hi])) (by simp [hlen])
    refine ⟨slots', ?_, by simpa using hlen', ?_, ?_⟩
    · rw [runPool]
      simp only [hp, hall j hj]
      exact heq
    · intro k hk
      rcases List.mem_cons.mp hk with heqk | hk'
      · subst heqk
        by_cases hkr : k ∈ rest
        · exact hmem k hkr
        · rw [hnot k hkr]
          exact List.getElem?_set_eq_of_lt (some (f k)) (by omega)
      · exact hmem k hk'
    · intro k hk
      have hkr : k ∉ rest := fun hc => hk (by simp [hc])
      have hkj : j ≠ k := fun hc => hk (by simp [hc])
      rw [hnot k hkr]
      exact List.getElem?_set_ne hkj

/-- C3: on a non-empty page list whose downloads all succeed (page `i`
yielding `f i`), `DownloadPagesInBatch` returns, for every completion
order of the concurrent downloads, exactly one slot per input page with
slot `i` holding page `i`'s result — output order is the input order,
independent of the completion order. -/
theorem C3_batch_order (env : Env) (pages : List Page) (order : List Nat)
    (f : Nat → PageWithImage)
    (hne : pages ≠ [])
    (hperm : order.Perm (List.range pages.length))
    (hall : ∀ i (hi : i < pages.length), DownloadPage env (pages.get ⟨i, hi⟩) = .ok (f i)) :
    DownloadPagesInBatch env pages order
      = .ok ((List.range pages.length).map (fun i => some (f i))) := by
  have hlen0 : ¬pages.length = 0 := fun h => hne (List.length_eq_zero.mp h)
  rw [DownloadPagesInBatch, if_neg hlen0]
  obtain ⟨slots', heq, hlen, hmem, hnot⟩ := runPool_ok env pages f hall order
    (List.replicate pages.length none)
    (fun i hi => List.mem_range.mp (hperm.mem_iff.mp hi))
    (List.length_replicate pages.length none)
  rw [heq]
  congr 1
  refine List.ext_getElem? fun k => ?_
  by_cases hk : k < pages.length
  · have hkord : k ∈ order := hperm.mem_iff.mpr (List.mem_range.mpr hk)
    rw [hmem k hkord]
    simp [List.getElem?_range, hk]
  · have hkord : k ∉ order := fun hc => hk (List.mem_range.mp (hperm.mem_iff.mp hc))
    rw [hnot k hkord]
    have h1 : (List.replicate pages.length (none : Option PageWithImage))[k]? = none := by
      simp [List.getElem?_eq_none]; omega
    have h2 : ((List.range pages.length).map (fun i => some (f i)))[k]? = none := by
      simp [List.getElem?_eq_none]; omega
    rw [h1, h2]

/-- C3 witness: two all-succeeding pages completed in order [1, 0] come
back as slot 0 = page 0's image, slot 1 = page 1's image. -/
theorem C3_batch_order_witness :
    DownloadPagesInBatch
      ⟨"prov", "m", "v", fun _ => "ch", .ok none,
        fun p => if p.extension = ".jpg" then .ok [2] else .ok [1],
        .ok [], [], false, .ok (), .ok ⟨[]⟩, .ok [], .ok [], .ok []⟩
      [⟨".png", none⟩, ⟨".jpg", none⟩] [1, 0]
      = .ok [some ⟨⟨".png", none⟩, [1]⟩, some ⟨⟨".jpg", none⟩, [2]⟩] := by
  have h := C3_batch_order
    ⟨"prov", "m", "v", fun _ => "ch", .ok none,
      fun p => if p.extension = ".jpg" then .ok [2] else .ok [1],
      .ok [], [], false, .ok (), .ok ⟨[]⟩, .ok [], .ok [], .ok []⟩
    [⟨".png", none⟩, ⟨".jpg", none⟩] [1, 0]
    (fun i => if i = 0 then ⟨⟨".png", none⟩, [1]⟩ else ⟨⟨".jpg", none⟩, [2]⟩)
    (by decide) (by decide)
    (by intro i hi
        simp only [List.length_cons, List.length_nil] at hi
        interval_cases i <;> rfl)
  simpa using h

/-- Options exercising the C4 counterexample: `SkipIfExists = false` on a
chapter path that does not pre-exist. -/
def c4Options : DownloadOptions :=
  { witnessOptions with skipIfExists := false, writeSeriesJSON := false }

/-- C4 (as stated) is false: with `SkipIfExists = false` and a chapter
path that did NOT pre-exist (the existence check is constantly false),
the freshly written body is reported as Overwritten, not New. -/
theorem C4_counterexample :
    (downloadChapterWithMetadata witnessEnv ⟨some cachedMeta1⟩ ⟨⟨1, "ch"⟩⟩ FS.empty
        c4Options (fun _ => false)).map (fun r => r.1.chapterStatus)
      = .ok DownloadStatusOverwritten ∧
    DownloadStatusOverwritten ≠ DownloadStatusNew := by
  exact ⟨by decide, by decide⟩

/-- A successful series.json step only rewrites the series.json status
field of the record. -/
theorem seriesJSONStep_fields (env : Env) (options : DownloadOptions)
    (existsFunc : String → Bool) (manga : Manga) (seriesJSONDir : String)
    (dcIn : DownloadedChapter) (fsIn : FS) (dc2 : DownloadedChapter) (fs2 : FS)
    (h : seriesJSONStep env options existsFunc manga seriesJSONDir dcIn fsIn = .ok (dc2, fs2)) :
    dc2 = { dcIn with seriesJSONStatus := dc2.seriesJSONStatus } := by
  unfold seriesJSONStep at h
  dsimp only at h
  by_cases hg : (options.writeSeriesJSON
      && !(options.skipSeriesJSONIfOngoing && (manga.statusOf == StatusReleasing))) = true
  · rw [if_pos hg] at h
    rcases hw : sidecarWrite fsIn existsFunc (pathJoin seriesJSONDir FilenameSeriesJSON)
        env.seriesJSONBytes options.strict with e | ⟨st, fsW⟩
    · simp [hw] at h
    · simp only [hw] at h
      rw [Except.ok.injEq, Prod.mk.injEq] at h
      obtain ⟨h1, -⟩ := h
      subst h1
      rfl
  · rw [if_neg hg] at h
    rw [Except.ok.injEq, Prod.mk.injEq] at h
    obtain ⟨h1, -⟩ := h
    subst h1
    rfl

/-- A successful cover step only rewrites the cover status field. -/
theorem coverStep_fields (env : Env) (options : DownloadOptions)
    (existsFunc : String → Bool) (coverDir : String)
    (dcIn : DownloadedChapter) (fsIn : FS) (dc2 : DownloadedChapter) (fs2 : FS)
    (h : coverStep env options existsFunc coverDir dcIn fsIn = .ok (dc2, fs2)) :
    dc2 = { dcIn with coverStatus := dc2.coverStatus } := by
  unfold coverStep at h
  by_cases hg : options.downloadMangaCover = true
  · rw [if_pos hg] at h
    rcases hw : sidecarWrite fsIn existsFunc (pathJoin coverDir FilenameCoverJPG)
        env.coverBytes options.strict with e | ⟨st, fsW⟩
    · simp [hw] at h
    · simp only [hw] at h
      rw [Except.ok.injEq, Prod.mk.injEq] at h
      obtain ⟨h1, -⟩ := h
      subst h1
      rfl
  · rw [if_neg hg] at h
    rw [Except.ok.injEq, Prod.mk.injEq] at h
    obtain ⟨h1, -⟩ := h
    subst h1
    rfl

/-- A successful banner step only rewrites the banner status field. -/
theorem bannerStep_fields (env : Env) (options : DownloadOptions)
    (existsFunc : String → Bool) (bannerDir : String)
    (dcIn : DownloadedChapter) (fsIn : FS) (dc2 : DownloadedChapter) (fs2 : FS)
    (h : bannerStep env options existsFunc bannerDir dcIn fsIn = .ok (dc2, fs2)) :
    dc2 = { dcIn with bannerStatus := dc2.bannerStatus } := by
  unfold bannerStep at h
  by_cases hg : options.downloadMangaBanner = true
  · rw [if_pos hg] at h
    rcases hw : sidecarWrite fsIn existsFunc (pathJoin bannerDir FilenameBannerJPG)
        env.bannerBytes options.strict with e | ⟨st, fsW⟩
    · simp [hw] at h
    · simp only [hw] at h
      rw [Except.ok.injEq, Prod.mk.injEq] at h
      obtain ⟨h1, -⟩ := h
      subst h1
      rfl
  · rw [if_neg hg] at h
    rw [Except.ok.injEq, Prod.mk.injEq] at h
    obtain ⟨h1, -⟩ := h
    subst h1
    rfl

/-- The sidecar phase never touches the chapter body status, the
ComicInfo status, or the identification fields of the record. -/
theorem sidecarPhase_fields (env : Env) (options : DownloadOptions)
    (existsFunc : String → Bool) (manga : Manga)
    (seriesJSONDir coverDir bannerDir : String)
    (dcIn : DownloadedChapter) (fsIn : FS) (dc : DownloadedChapter) (fs' : FS)
    (h : sidecarPhase env options existsFunc manga seriesJSONDir coverDir bannerDir dcIn fsIn
      = .ok (dc, fs')) :
    dc.chapterStatus = dcIn.chapterStatus ∧ dc.comicInfoXMLStatus = dcIn.comicInfoXMLStatus ∧
    dc.number = dcIn.number ∧ dc.title = dcIn.title ∧ dc.filename = dcIn.filename ∧
    dc.directory = dcIn.directory := by
  unfold sidecarPhase at h
  split at h
  · rw [Except.ok.injEq, Prod.mk.injEq] at h
    obtain ⟨h1, -⟩ := h
    rw [← h1]
    exact ⟨rfl, rfl, rfl, rfl, rfl, rfl⟩
  · rcases hs : seriesJSONStep env options existsFunc manga seriesJSONDir dcIn fsIn
      with e | ⟨dc2, fs2⟩
    · simp only [hs] at h
      exact Except.noConfusion h
    · simp only [hs] at h
      have h2 := seriesJSONStep_fields env options existsFunc manga seriesJSONDir
        dcIn fsIn dc2 fs2 hs
      rcases hc : coverStep env options existsFunc coverDir dc2 fs2 with e | ⟨dc3, fs3⟩
      · simp only [hc] at h
        exact Except.noConfusion h
      · simp only [hc] at h
        have h3 := coverStep_fields env options existsFunc coverDir dc2 fs2 dc3 fs3 hc
        have h4 := bannerStep_fields env options existsFunc bannerDir dc3 fs3 dc fs' h
        rw [h4, h3, h2]
        exact ⟨rfl, rfl, rfl, rfl, rfl, rfl⟩

/-- C4 (amended): on a successful `downloadChapterWithMetadata`, the
chapter body status is Exists when the target pre-existed with
`SkipIfExists`, New when it did not pre-exist and `SkipIfExists` is set,
and Overwritten whenever `SkipIfExists` is false — regardless of whether
the target pre-existed. -/
theorem C4_chapter_status (env : Env) (manga : Manga) (chapter : Chapter) (fs : FS)
    (options : DownloadOptions) (existsFunc : String → Bool)
    (dc : DownloadedChapter) (fs' : FS)
    (h : downloadChapterWithMetadata env manga chapter fs options existsFunc = .ok (dc, fs')) :
    dc.chapterStatus =
      if existsFunc (chapterTargetPath env options) && options.skipIfExists
      then DownloadStatusExists
      else if options.skipIfExists then DownloadStatusNew
      else DownloadStatusOverwritten := by
  simp only [downloadChapterWithMetadata, chapterTargetPath] at h ⊢
  by_cases hskip : options.skipIfExists = true <;>
    by_cases hce : existsFunc
      (pathJoin (chapterDirectory env options) (env.chapterFilename options.format)) = true
  · -- pre-existing target with SkipIfExists: the body is skipped
    rw [if_neg (by simp [hskip, hce])] at h
    dsimp only at h
    have hf := sidecarPhase_fields env options existsFunc manga _ _ _ _ _ dc fs' h
    rw [hf.1]
    simp [hskip, hce]
  all_goals
    rw [if_pos (by simp [hskip, hce])] at h
  all_goals
    rcases hdl : downloadChapter env manga chapter (fs.mkdirAll (chapterDirectory env options))
        (pathJoin (chapterDirectory env options) (env.chapterFilename options.format)) options
      with e | ⟨ci, fsB⟩
  all_goals simp only [hdl] at h
  · exact Except.noConfusion h
  · have hf := sidecarPhase_fields env options existsFunc manga _ _ _ _ _ dc fs' h
    rw [hf.1]
    simp [hskip, hce]
  · exact Except.noConfusion h
  · have hf := sidecarPhase_fields env options existsFunc manga _ _ _ _ _ dc fs' h
    rw [hf.1]
    simp [hskip, hce]
  · exact Except.noConfusion h
  · have hf := sidecarPhase_fields env options existsFunc manga _ _ _ _ _ dc fs' h
    rw [hf.1]
    simp [hskip, hce]

/-- C4 witness (amended): a fresh body with `SkipIfExists = true` is New. -/
theorem C4_chapter_status_witness :
    (({ witnessOptions with writeSeriesJSON := false } : DownloadOptions).skipIfExists = true) ∧
    ({ number := 1, title := "ch", filename := "ch1.cbz", directory := "root/m",
       chapterStatus := DownloadStatusNew, seriesJSONStatus := DownloadStatusSkip,
       comicInfoXMLStatus := DownloadStatusSkip, coverStatus := DownloadStatusSkip,
       bannerStatus := DownloadStatusSkip } : DownloadedChapter).chapterStatus
      = DownloadStatusNew := by
  refine ⟨rfl, ?_⟩
  have h := C4_chapter_status witnessEnv ⟨some cachedMeta1⟩ ⟨⟨1, "ch"⟩⟩ FS.empty
    { witnessOptions with writeSeriesJSON := false } (fun _ => false)
    { number := 1, title := "ch", filename := "ch1.cbz", directory := "root/m",
      chapterStatus := DownloadStatusNew, seriesJSONStatus := DownloadStatusSkip,
      comicInfoXMLStatus := DownloadStatusSkip, coverStatus := DownloadStatusSkip,
      bannerStatus := DownloadStatusSkip }
    (downloadChapterWithMetadata witnessEnv ⟨some cachedMeta1⟩ ⟨⟨1, "ch"⟩⟩ FS.empty
      { witnessOptions with writeSeriesJSON := false } (fun _ => false)).toOption.get!.2
    (by decide)
  rw [h]
  simp [witnessOptions]

/-- When `SkipSeriesJSONIfOngoing` is set and the work's status is
Releasing, the series.json block does nothing at all, regardless of
`WriteSeriesJSON`. -/
theorem seriesJSONStep_skipped (env : Env) (options : DownloadOptions)
    (existsFunc : String → Bool) (manga : Manga) (seriesJSONDir : String)
    (dcIn : DownloadedChapter) (fsIn : FS)
    (hflag : options.skipSeriesJSONIfOngoing = true)
    (hstat : manga.statusOf = StatusReleasing) :
    seriesJSONStep env options existsFunc manga seriesJSONDir dcIn fsIn = .ok (dcIn, fsIn) := by
  unfold seriesJSONStep
  dsimp only
  rw [if_neg (by simp [hflag, hstat])]

/-- With valid metadata, `SkipSeriesJSONIfOngoing` set and a Releasing
status, the sidecar phase leaves the series.json status untouched. -/
theorem sidecarPhase_seriesSkip (env : Env) (options : DownloadOptions)
    (existsFunc : String → Bool) (manga : Manga)
    (seriesJSONDir coverDir bannerDir : String)
    (dcIn : DownloadedChapter) (fsIn : FS) (dc : DownloadedChapter) (fs' : FS)
    (hvalid : validOK manga.metadata = true)
    (hflag : options.skipSeriesJSONIfOngoing = true)
    (hstat : manga.statusOf = StatusReleasing)
    (h : sidecarPhase env options existsFunc manga seriesJSONDir coverDir bannerDir dcIn fsIn
      = .ok (dc, fs')) :
    dc.seriesJSONStatus = dcIn.seriesJSONStatus := by
  unfold sidecarPhase at h
  rw [if_neg (by simp [hvalid])] at h
  rw [seriesJSONStep_skipped env options existsFunc manga seriesJSONDir dcIn fsIn
    hflag hstat] at h
  dsimp only at h
  rcases hc : coverStep env options existsFunc coverDir dcIn fsIn with e | ⟨dc3, fs3⟩
  · simp only [hc] at h
    exact Except.noConfusion h
  · simp only [hc] at h
    have h3 := coverStep_fields env options existsFunc coverDir dcIn fsIn dc3 fs3 hc
    have h4 := bannerStep_fields env options existsFunc bannerDir dc3 fs3 dc fs' h
    rw [h4, h3]

/-- C8 (amended): whenever `downloadChapterWithMetadata` succeeds with
metadata that passes validation, `SkipSeriesJSONIfOngoing` set and status
Releasing, the returned SeriesJSONStatus is Skip, regardless of
`WriteSeriesJSON`. -/
theorem C8_seriesjson_skip (env : Env) (manga : Manga) (chapter : Chapter) (fs : FS)
    (options : DownloadOptions) (existsFunc : String → Bool)
    (dc : DownloadedChapter) (fs' : FS)
    (hvalid : validOK manga.metadata = true)
    (hflag : options.skipSeriesJSONIfOngoing = true)
    (hstat : manga.statusOf = StatusReleasing)
    (h : downloadChapterWithMetadata env manga chapter fs options existsFunc = .ok (dc, fs')) :
    dc.seriesJSONStatus = DownloadStatusSkip := by
  simp only [downloadChapterWithMetadata] at h
  by_cases hbody : (!existsFunc
      (pathJoin (chapterDirectory env options) (env.chapterFilename options.format))
      || !options.skipIfExists) = true
  · rw [if_pos hbody] at h
    rcases hdl : downloadChapter env manga chapter (fs.mkdirAll (chapterDirectory env options))
        (pathJoin (chapterDirectory env options) (env.chapterFilename options.format)) options
      with e | ⟨ci, fsB⟩
    · simp only [hdl] at h
      exact Except.noConfusion h
    · simp only [hdl] at h
      have hs := sidecarPhase_seriesSkip env options existsFunc manga _ _ _ _ _ dc fs'
        hvalid hflag hstat h
      rw [hs]
  · rw [if_neg hbody] at h
    have hs := sidecarPhase_seriesSkip env options existsFunc manga _ _ _ _ _ dc fs'
      hvalid hflag hstat h
    rw [hs]

/-- An invalid (no authors) metadata record whose status is Releasing —
the C8 counterexample input. -/
def releasingInvalidMeta : MetadataRecord :=
  { str := "X (2000)", title := "X", authors := [], startDate := ⟨2000, 1, 1⟩,
    status := StatusReleasing,
    id := { IDRaw := "7", IDSource := IDSourceAnilist, IDCode := "al" }, extraIDs := [] }

/-- A valid metadata record whose status is Releasing. -/
def releasingMeta : MetadataRecord :=
  { cachedMeta1 with status := StatusReleasing }

/-- Options with `SkipSeriesJSONIfOngoing` and `WriteSeriesJSON` set,
non-Strict — the C8 counterexample configuration. -/
def c8Options : DownloadOptions :=
  { witnessOptions with
      strict := false
      skipSeriesJSONIfOngoing := true
      writeSeriesJSON := true }

/-- C8 (as stated) is false: with `SkipSeriesJSONIfOngoing = true` and a
metadata whose `Status()` is Releasing but which fails validation (no
authors), the returned SeriesJSONStatus is MissingMetadata, not Skip. -/
theorem C8_counterexample :
    c8Options.skipSeriesJSONIfOngoing = true ∧
    (⟨some releasingInvalidMeta⟩ : Manga).statusOf = StatusReleasing ∧
    (downloadChapterWithMetadata witnessEnv ⟨some releasingInvalidMeta⟩ ⟨⟨1, "ch"⟩⟩ FS.empty
        c8Options (fun _ => false)).map (fun r => r.1.seriesJSONStatus)
      = .ok DownloadStatusMissingMetadata ∧
    DownloadStatusMissingMetadata ≠ DownloadStatusSkip := by
  exact ⟨rfl, rfl, by decide, by decide⟩

/-- C8 witness (amended): valid Releasing metadata under
`SkipSeriesJSONIfOngoing` (with `WriteSeriesJSON` set) yields
SeriesJSONStatus = Skip. -/
theorem C8_seriesjson_skip_witness :
    ((downloadChapterWithMetadata witnessEnv ⟨some releasingMeta⟩ ⟨⟨1, "ch"⟩⟩ FS.empty
        { witnessOptions with skipSeriesJSONIfOngoing := true }
        (fun _ => false)).toOption.get!).1.seriesJSONStatus = DownloadStatusSkip :=
  C8_seriesjson_skip witnessEnv ⟨some releasingMeta⟩ ⟨⟨1, "ch"⟩⟩ FS.empty
    { witnessOptions with skipSeriesJSONIfOngoing := true } (fun _ => false)
    ((downloadChapterWithMetadata witnessEnv ⟨some releasingMeta⟩ ⟨⟨1, "ch"⟩⟩ FS.empty
        { witnessOptions with skipSeriesJSONIfOngoing := true }
        (fun _ => false)).toOption.get!).1
    ((downloadChapterWithMetadata witnessEnv ⟨some releasingMeta⟩ ⟨⟨1, "ch"⟩⟩ FS.empty
        { witnessOptions with skipSeriesJSONIfOngoing := true }
        (fun _ => false)).toOption.get!).2
    (by decide) rfl rfl (by decide)

/-- With clean creates up to page `i`, clean writes before `i` and a
failing write at page `i`, the CBZ page loop takes the early
`return "", nil` path. -/
theorem saveCBZPages_earlyOk (w : OutStream) :
    ∀ (pages : List PageWithImage) (k : Nat) (acc : List (String × List Nat))
      (i : Nat) (e : Err), i < pages.length →
      (∀ j, j ≤ i → w.createFail (k + j) = none) →
      (∀ j, j < i → w.writeFail (k + j) = none) →
      w.writeFail (k + i) = some e →
      ∃ entries, saveCBZPages w pages k acc = .earlyOk entries := by
  intro pages
  induction pages with
  | nil =>
    intro k acc i e hi
    simp at hi
  | cons p rest ih =>
    intro k acc i e hi hcreate hwrite hfail
    cases i with
    | zero =>
      have hc0 : w.createFail k = none := by simpa using hcreate 0 (le_refl 0)
      have hf0 : w.writeFail k = some e := by simpa using hfail
      rw [saveCBZPages]
      simp only [hc0, hf0]
      exact ⟨acc, rfl⟩
    | succ n =>
      have hc0 : w.createFail k = none := by simpa using hcreate 0 (by omega)
      have hw0 : w.writeFail k = none := by simpa using hwrite 0 (by omega)
      rw [saveCBZPages]
      simp only [hc0, hw0]
      refine ih (k + 1) (acc ++ [(pageEntryName k p.page.extension, p.image)]) n e
        (by simp at hi; omega) ?_ ?_ ?_
      · intro j hj
        rw [show k + 1 + j = k + (j + 1) from by omega]
        exact hcreate (j + 1) (by omega)
      · intro j hj
        rw [show k + 1 + j = k + (j + 1) from by omega]
        exact hwrite (j + 1) (by omega)
      · rw [show k + 1 + n = k + (n + 1) from by omega]
        exact hfail

/-- Under the same failure profile, the ZIP page loop propagates the
write error. -/
theorem saveZIPPages_error (w : OutStream) :
    ∀ (pages : List PageWithImage) (k : Nat) (acc : List (String × List Nat))
      (i : Nat) (e : Err), i < pages.length →
      (∀ j, j ≤ i → w.createFail (k + j) = none) →
      (∀ j, j < i → w.writeFail (k + j) = none) →
      w.writeFail (k + i) = some e →
      saveZIPPages w pages k acc = .error e := by
  intro pages
  induction pages with
  | nil =>
    intro k acc i e hi
    simp at hi
  | cons p rest ih =>
    intro k acc i e hi hcreate hwrite hfail
    cases i with
    | zero =>
      have hc0 : w.createFail k = none := by simpa using hcreate 0 (le_refl 0)
      have hf0 : w.writeFail k = some e := by simpa using hfail
      rw [saveZIPPages]
      simp only [hc0, hf0]
    | succ n =>
      have hc0 : w.createFail k = none := by simpa using hcreate 0 (by omega)
      have hw0 : w.writeFail k = none := by simpa using hwrite 0 (by omega)
      rw [saveZIPPages]
      simp only [hc0, hw0]
      refine ih (k + 1) (acc ++ [(pageEntryName k p.page.extension, p.image)]) n e
        (by simp at hi; omega) ?_ ?_ ?_
      · intro j hj
        rw [show k + 1 + j = k + (j + 1) from by omega]
        exact hcreate (j + 1) (by omega)
      · intro j hj
        rw [show k + 1 + j = k + (j + 1) from by omega]
        exact hwrite (j + 1) (by omega)
      · rw [show k + 1 + n = k + (n + 1) from by omega]
        exact hfail

/-- Under the same failure profile, the TAR page loop propagates the
write error. -/
theorem saveTARPages_error (w : OutStream) :
    ∀ (pages : List PageWithImage) (k : Nat) (acc : List (String × List Nat))
      (i : Nat) (e : Err), i < pages.length →
      (∀ j, j ≤ i → w.createFail (k + j) = none) →
      (∀ j, j < i → w.writeFail (k + j) = none) →
      w.writeFail (k + i) = some e →
      saveTARPages w pages k acc = .error e := by
  intro pages
  induction pages with
  | nil =>
    intro k acc i e hi
    simp at hi
  | cons p rest ih =>
    intro k acc i e hi hcreate hwrite hfail
    cases i with
    | zero =>
      have hc0 : w.createFail k = none := by simpa using hcreate 0 (le_refl 0)
      have hf0 : w.writeFail k = some e := by simpa using hfail
      rw [saveTARPages]
      simp only [hc0, hf0]
    | succ n =>
      have hc0 : w.createFail k = none := by simpa using hcreate 0 (by omega)
      have hw0 : w.writeFail k = none := by simpa using hwrite 0 (by omega)
      rw [saveTARPages]
      simp only [hc0, hw0]
      refine ih (k + 1) (acc ++ [(pageEntryName k p.page.extension, p.image)]) n e
        (by simp at hi; omega) ?_ ?_ ?_
      · intro j hj
        rw [show k + 1 + j = k + (j + 1) from by omega]
        exact hcreate (j + 1) (by omega)
      · intro j hj
        rw [show k + 1 + j = k + (j + 1) from by omega]
        exact hwrite (j + 1) (by omega)
      · rw [show k + 1 + n = k + (n + 1) from by omega]
        exact hfail

/-- C10: when writing page `i`'s image bytes into the archive fails (all
earlier operations clean), `saveCBZ` reports success with the zero-valued
("") status — the write error is discarded — while `saveZIP` and
`saveTAR` on the same pages and writer propagate that same error. -/
theorem C10_savecbz_discards_write_error (pages : List PageWithImage) (w : OutStream)
    (ci : Option ComicInfoXML) (opts : ComicInfoXMLOptions) (i : Nat) (e : Err)
    (hi : i < pages.length)
    (hcreate : ∀ j, j ≤ i → w.createFail j = none)
    (hwrite : ∀ j, j < i → w.writeFail j = none)
    (hfail : w.writeFail i = some e) :
    (∃ entries, saveCBZ pages w ci opts = .ok ("", entries)) ∧
    saveZIP pages w = .error e ∧
    saveTAR pages w = .error e := by
  obtain ⟨entries, hcbz⟩ := saveCBZPages_earlyOk w pages 0 [] i e hi
    (fun j hj => by simpa using hcreate j hj)
    (fun j hj => by simpa using hwrite j hj)
    (by simpa using hfail)
  refine ⟨⟨entries, ?_⟩, ?_, ?_⟩
  · rw [saveCBZ, hcbz]
  · rw [saveZIP]
    exact saveZIPPages_error w pages 0 [] i e hi
      (fun j hj => by simpa using hcreate j hj)
      (fun j hj => by simpa using hwrite j hj)
      (by simpa using hfail)
  · rw [saveTAR]
    exact saveTARPages_error w pages 0 [] i e hi
      (fun j hj => by simpa using hcreate j hj)
      (fun j hj => by simpa using hwrite j hj)
      (by simpa using hfail)

/-- C10 witness: one page whose content write fails with "boom": saveCBZ
returns success with status "", saveZIP and saveTAR return the error. -/
theorem C10_savecbz_discards_write_error_witness :
    (∃ entries, saveCBZ [⟨⟨".png", none⟩, [1]⟩]
      ⟨fun _ => none, fun n => if n = 0 then some "boom" else none⟩
      (some ⟨[7]⟩) ⟨true⟩ = .ok ("", entries)) ∧
    saveZIP [⟨⟨".png", none⟩, [1]⟩]
      ⟨fun _ => none, fun n => if n = 0 then some "boom" else none⟩ = .error "boom" ∧
    saveTAR [⟨⟨".png", none⟩, [1]⟩]
      ⟨fun _ => none, fun n => if n = 0 then some "boom" else none⟩ = .error "boom" :=
  C10_savecbz_discards_write_error [⟨⟨".png", none⟩, [1]⟩]
    ⟨fun _ => none, fun n => if n = 0 then some "boom" else none⟩
    (some ⟨[7]⟩) ⟨true⟩ 0 "boom" (by decide)
    (fun j _ => rfl)
    (fun j hj => absurd hj (by omega))
    rfl

/-- Against a provider whose every search is empty, one `Search` of the
cache wrapper returns an empty list, preserves the empty-query-cache
invariant, makes at most one provider search round-trip and no by-id
round-trip. -/
theorem search_emptyMetaProvider (st : PWCState) (q : GoStr)
    (h : emptyQueryCache st.store) :
    ∃ st', ProviderWithCache.Search emptyMetaProvider st q = (.ok [], st') ∧
      emptyQueryCache st'.store ∧
      st.searchCalls ≤ st'.searchCalls ∧ st'.searchCalls ≤ st.searchCalls + 1 ∧
      st'.byIDCalls = st.byIDCalls := by
  rcases hq : st.store.getQueryIDs q with _ | ids
  · refine ⟨⟨st.store.setQueryIDs q [], st.searchCalls + 1, st.byIDCalls⟩,
      ?_, ?_, by simp, by simp, rfl⟩
    · simp only [ProviderWithCache.Search, hq, emptyMetaProvider, storeSearchResults]
    · intro q' ids' hq'
      simp only [Store.getQueryIDs, Store.setQueryIDs, List.lookup] at hq'
      split at hq'
      · cases hq'; rfl
      · exact h q' ids' hq'
  · have hids := h q ids hq
    subst hids
    refine ⟨st, ?_, h, le_refl _, by omega, rfl⟩
    simp only [ProviderWithCache.Search, hq, searchCachedIDs]

/-- Against a provider whose every search is empty, `findClosest` with any
fuel returns not-found with no error, making at most `tries` provider
search round-trips and no by-id round-trips. -/
theorem findClosest_emptyMetaProvider (step : Nat) :
    ∀ (tries : Nat) (st : PWCState) (title : GoStr), emptyQueryCache st.store →
    ∃ st', ProviderWithCache.findClosest emptyMetaProvider step tries st title
        = (.ok none, st') ∧
      st'.searchCalls ≤ st.searchCalls + tries ∧
      st'.byIDCalls = st.byIDCalls := by
  intro tries
  induction tries with
  | zero =>
    intro st title _
    exact ⟨st, rfl, by omega, rfl⟩
  | succ n ih =>
    intro st title h
    obtain ⟨st1, hsearch, hinv1, hlo, hhi, hbid⟩ := search_emptyMetaProvider st title h
    unfold ProviderWithCache.findClosest
    simp only [hsearch]
    by_cases h1 : (trimSpace title).length > step
    · rw [if_pos h1]
      obtain ⟨st', heq, hc, hb⟩ := ih st1 _ hinv1
      exact ⟨st', heq, by omega, by omega⟩
    · rw [if_neg h1]
      by_cases h2 : (trimSpace title).length > 1
      · rw [if_pos h2]
        obtain ⟨st', heq, hc, hb⟩ := ih st1 _ hinv1
        exact ⟨st', heq, by omega, by omega⟩
      · rw [if_neg h2]
        exact ⟨st1, rfl, by omega, by omega⟩

/-- C5: with `tries = 3`, `step = 3` and a provider whose every search
returns an empty result list, `findClosest` (a) makes at most 3 provider
search calls (and no by-id calls) and returns found = false with no
error, for every starting title; and after each empty attempt (b) a
whitespace-trimmed title longer than `step` loses its last `step`
characters, (c) one of length in (1, `step`] loses its last character,
and (d) one of length ≤ 1 aborts the retry loop. -/
theorem C5_findClosest_termination :
    (∀ (st : PWCState) (title : GoStr), emptyQueryCache st.store →
      ∃ st', ProviderWithCache.findClosest emptyMetaProvider 3 3 st title
          = (.ok none, st') ∧
        st'.searchCalls ≤ st.searchCalls + 3 ∧
        st'.byIDCalls = st.byIDCalls) ∧
    (∀ (prov : Provider) (step tries : Nat) (st st' : PWCState) (title : GoStr),
      ProviderWithCache.Search prov st title = (.ok [], st') →
      (trimSpace title).length > step →
      ProviderWithCache.findClosest prov step (tries + 1) st title
        = ProviderWithCache.findClosest prov step tries st'
            ((trimSpace title).take ((trimSpace title).length - step))) ∧
    (∀ (prov : Provider) (step tries : Nat) (st st' : PWCState) (title : GoStr),
      ProviderWithCache.Search prov st title = (.ok [], st') →
      ¬(trimSpace title).length > step → (trimSpace title).length > 1 →
      ProviderWithCache.findClosest prov step (tries + 1) st title
        = ProviderWithCache.findClosest prov step tries st'
            ((trimSpace title).take ((trimSpace title).length - 1))) ∧
    (∀ (prov : Provider) (step tries : Nat) (st st' : PWCState) (title : GoStr),
      ProviderWithCache.Search prov st title = (.ok [], st') →
      ¬(trimSpace title).length > step → ¬(trimSpace title).length > 1 →
      ProviderWithCache.findClosest prov step (tries + 1) st title = (.ok none, st')) := by
  refine ⟨fun st title h => findClosest_emptyMetaProvider 3 3 st title h, ?_, ?_, ?_⟩
  · intro prov step tries st st' title hsearch h1
    conv_lhs => unfold ProviderWithCache.findClosest
    simp only [hsearch]
    rw [if_pos h1]
  · intro prov step tries st st' title hsearch h1 h2
    conv_lhs => unfold ProviderWithCache.findClosest
    simp only [hsearch]
    rw [if_neg h1, if_pos h2]
  · intro prov step tries st st' title hsearch h1 h2
    conv_lhs => unfold ProviderWithCache.findClosest
    simp only [hsearch]
    rw [if_neg h1, if_neg h2]

/-- C5 witness: the spec's concrete scenario, title "short" with a fresh
cache — the claim's conclusions hold there, and the one-step trimming
facts hold at "Berserk" (7 > 3), "sh" (1 < 2 ≤ 3) and "s" (length 1). -/
theorem C5_findClosest_termination_witness :
    (∃ st', ProviderWithCache.findClosest emptyMetaProvider 3 3 ⟨Store.empty, 0, 0⟩ (gs "short")
        = (.ok none, st') ∧
      st'.searchCalls ≤ 0 + 3 ∧ st'.byIDCalls = 0) ∧
    (ProviderWithCache.findClosest emptyMetaProvider 3 3 ⟨Store.empty, 0, 0⟩ (gs "Berserk")
      = ProviderWithCache.findClosest emptyMetaProvider 3 2
          (ProviderWithCache.Search emptyMetaProvider ⟨Store.empty, 0, 0⟩ (gs "Berserk")).2
          (gs "Bers")) ∧
    (ProviderWithCache.findClosest emptyMetaProvider 3 3 ⟨Store.empty, 0, 0⟩ (gs "sh")
      = ProviderWithCache.findClosest emptyMetaProvider 3 2
          (ProviderWithCache.Search emptyMetaProvider ⟨Store.empty, 0, 0⟩ (gs "sh")).2
          (gs "s")) ∧
    (ProviderWithCache.findClosest emptyMetaProvider 3 3 ⟨Store.empty, 0, 0⟩ (gs "s")
      = (.ok none, (ProviderWithCache.Search emptyMetaProvider ⟨Store.empty, 0, 0⟩ (gs "s")).2)) := by
  obtain ⟨ha, hb, hc, hd⟩ := C5_findClosest_termination
  refine ⟨ha ⟨Store.empty, 0, 0⟩ (gs "short") ?_, ?_, ?_, ?_⟩
  · intro q ids h
    simp [Store.getQueryIDs, Store.empty, List.lookup] at h
  · exact hb emptyMetaProvider 3 2 ⟨Store.empty, 0, 0⟩
      (ProviderWithCache.Search emptyMetaProvider ⟨Store.empty, 0, 0⟩ (gs "Berserk")).2
      (gs "Berserk") rfl (by decide)
  · exact hc emptyMetaProvider 3 2 ⟨Store.empty, 0, 0⟩
      (ProviderWithCache.Search emptyMetaProvider ⟨Store.empty, 0, 0⟩ (gs "sh")).2
      (gs "sh") rfl (by decide) (by decide)
  · exact hd emptyMetaProvider 3 2 ⟨Store.empty, 0, 0⟩
      (ProviderWithCache.Search emptyMetaProvider ⟨Store.empty, 0, 0⟩ (gs "s")).2
      (gs "s") rfl (by decide) (by decide)

/-- The cache-miss store loop records the parsed id of every result (in
order), caches every result under its parsed id, touches no other
id→Metadata entry, and leaves the query→[ids] bucket alone. -/
theorem storeSearchResults_ok (metas : List MetadataRecord) :
    ∀ store : Store, (∀ m ∈ metas, (atoi m.id.IDRaw).isSome) →
    ∃ ids store',
      storeSearchResults store metas = (.ok ids, store') ∧
      List.Forall₂ (fun id m => atoi m.id.IDRaw = some id) ids metas ∧
      (∀ id ∈ ids, ∃ mm, store'.getMeta id = some mm ∧ atoi mm.id.IDRaw = some id) ∧
      (∀ k, k ∉ ids → store'.getMeta k = store.getMeta k) ∧
      store'.queryIDs = store.queryIDs := by
  induction metas with
  | nil =>
    intro store _
    exact ⟨[], store, rfl, .nil, by simp, fun k _ => rfl, rfl⟩
  | cons m rest ih =>
    intro store h
    obtain ⟨n, hn⟩ := Option.isSome_iff_exists.mp (h m (by simp))
    obtain ⟨ids, store', heq, hrel, hmem, hpres, hq⟩ :=
      ih (store.setMeta n m) (fun x hx => h x (by simp [hx]))
    refine ⟨n :: ids, store', ?_, .cons hn hrel, ?_, ?_, hq⟩
    · simp only [storeSearchResults, hn, heq]
    · intro id hid
      rcases List.mem_cons.mp hid with h1 | h1
      · subst h1
        by_cases hin : id ∈ ids
        · exact hmem id hin
        · refine ⟨m, ?_, hn⟩
          rw [hpres id hin]
          simp [Store.getMeta, Store.setMeta, List.lookup]
      · exact hmem id h1
    · intro k hk
      have h2 : k ∉ ids := fun hc => hk (by simp [hc])
      have h3 : ¬(k = n) := fun hc => hk (by simp [hc])
      rw [hpres k h2]
      have h4 : (k == n) = false := beq_eq_false_iff_ne.mpr h3
      simp [Store.getMeta, Store.setMeta, List.lookup, h4]

/-- If every cached id resolves in the id→Metadata bucket, the cache-hit
loop of `Search` returns those cached records in id order and leaves the
whole wrapper state (store and both round-trip counters) unchanged. -/
theorem searchCachedIDs_allCached (prov : Provider) (ids : List Int) :
    ∀ st : PWCState,
    (∀ id ∈ ids, ∃ mm, st.store.getMeta id = some mm ∧ atoi mm.id.IDRaw = some id) →
    ∃ metas, searchCachedIDs prov ids st = (.ok metas, st) ∧
      List.Forall₂ (fun m id => atoi m.id.IDRaw = some id) metas ids := by
  induction ids with
  | nil =>
    intro st _
    exact ⟨[], rfl, .nil⟩
  | cons id rest ih =>
    intro st h
    obtain ⟨mm, hmm, hparse⟩ := h id (by simp)
    obtain ⟨metas, heq, hrel⟩ := ih st (fun x hx => h x (by simp [hx]))
    refine ⟨mm :: metas, ?_, .cons hparse hrel⟩
    simp only [searchCachedIDs, ProviderWithCache.SearchByID, hmm, heq]

theorem forall2_ids_map (ids : List Int) (metas : List MetadataRecord)
    (h : List.Forall₂ (fun id m => atoi m.id.IDRaw = some id) ids metas) :
    metas.map (fun m => atoi m.id.IDRaw) = ids.map some := by
  induction h with
  | nil => rfl
  | cons h1 _ ih => simp [ih, h1]

theorem forall2_metas_map (metas : List MetadataRecord) (ids : List Int)
    (h : List.Forall₂ (fun m id => atoi m.id.IDRaw = some id) metas ids) :
    metas.map (fun m => atoi m.id.IDRaw) = ids.map some := by
  induction h with
  | nil => rfl
  | cons h1 _ ih => simp [ih, h1]

/-- C6: over a deterministic provider whose results for query Q all carry
integer-parsable raw ids (and with the in-memory store, on which cache
get/set cannot fail), a first `Search Q` that misses the query cache
returns the provider's results, and a second `Search Q` is answered
entirely from the query→[ids] cache composed with the id→Metadata cache:
it returns the same sequence of parsed metadata ids and leaves the whole
wrapper state — including both provider round-trip counters — unchanged
(zero calls to the underlying provider's `Search` or `SearchByID`). -/
theorem C6_search_idempotent_cached (prov : Provider) (st0 : PWCState) (Q : GoStr)
    (metas : List MetadataRecord)
    (hmiss : st0.store.getQueryIDs Q = none)
    (hok : prov.search Q = .ok metas)
    (hparse : ∀ m ∈ metas, (atoi m.id.IDRaw).isSome) :
    ∃ metas2,
      (ProviderWithCache.Search prov st0 Q).1 = .ok metas ∧
      (ProviderWithCache.Search prov (ProviderWithCache.Search prov st0 Q).2 Q).1
        = .ok metas2 ∧
      metas2.map (fun m => atoi m.id.IDRaw) = metas.map (fun m => atoi m.id.IDRaw) ∧
      (ProviderWithCache.Search prov (ProviderWithCache.Search prov st0 Q).2 Q).2
        = (ProviderWithCache.Search prov st0 Q).2 := by
  obtain ⟨ids, store', heq, hrel, hmem, hpres, hq⟩ := storeSearchResults_ok metas st0.store hparse
  have hSearch1 : ProviderWithCache.Search prov st0 Q
      = (.ok metas, ⟨store'.setQueryIDs Q ids, st0.searchCalls + 1, st0.byIDCalls⟩) := by
    simp only [ProviderWithCache.Search, hmiss, hok, heq]
  have hhit : (store'.setQueryIDs Q ids).getQueryIDs Q = some ids := by
    simp [Store.getQueryIDs, Store.setQueryIDs, List.lookup]
  have hcached : ∀ id ∈ ids,
      ∃ mm, (store'.setQueryIDs Q ids).getMeta id = some mm ∧ atoi mm.id.IDRaw = some id := by
    intro id hid
    obtain ⟨mm, h1, h2⟩ := hmem id hid
    exact ⟨mm, h1, h2⟩
  obtain ⟨metas2, heq2, hrel2⟩ := searchCachedIDs_allCached prov ids
    ⟨store'.setQueryIDs Q ids, st0.searchCalls + 1, st0.byIDCalls⟩ hcached
  refine ⟨metas2, by rw [hSearch1], ?_, ?_, ?_⟩
  · rw [hSearch1]
    simp only [ProviderWithCache.Search, hhit, heq2]
  · rw [forall2_metas_map metas2 ids hrel2, forall2_ids_map ids metas hrel]
  · rw [hSearch1]
    simp only [ProviderWithCache.Search, hhit, heq2]

/-- Call-counting stub provider used by the C6 witness. -/
def stubProvider : Provider :=
  { searchByID := fun _ => .ok none,
    search := fun q => if q = gs "berserk" then .ok [cachedMeta1, cachedMeta2] else .ok [] }

/-- C6 witness: the double-search property at a concrete fresh wrapper
over the stub provider and the query "berserk". -/
theorem C6_search_idempotent_cached_witness :
    ∃ metas2,
      (ProviderWithCache.Search stubProvider ⟨Store.empty, 0, 0⟩ (gs "berserk")).1
        = .ok [cachedMeta1, cachedMeta2] ∧
      (ProviderWithCache.Search stubProvider
          (ProviderWithCache.Search stubProvider ⟨Store.empty, 0, 0⟩ (gs "berserk")).2
          (gs "berserk")).1 = .ok metas2 ∧
      metas2.map (fun m => atoi m.id.IDRaw)
        = [cachedMeta1, cachedMeta2].map (fun m => atoi m.id.IDRaw) ∧
      (ProviderWithCache.Search stubProvider
          (ProviderWithCache.Search stubProvider ⟨Store.empty, 0, 0⟩ (gs "berserk")).2
          (gs "berserk")).2
        = (ProviderWithCache.Search stubProvider ⟨Store.empty, 0, 0⟩ (gs "berserk")).2 :=
  C6_search_idempotent_cached stubProvider ⟨Store.empty, 0, 0⟩ (gs "berserk")
    [cachedMeta1, cachedMeta2] rfl rfl (by decide)

/-- C7 counterexample input: an AnimePlanet-sourced ID whose raw value is
not an integer. -/
def animePlanetID : ID := { IDRaw := "abc", IDSource := IDSourceAnimePlanet, IDCode := "ap" }

/-- C7 (as stated) is false: `ID.validate` accepts an AnimePlanet-sourced
ID whose source is not the content provider and whose raw value does not
parse as an integer at all. -/
theorem C7_counterexample :
    animePlanetID.validate = .ok () ∧
    animePlanetID.IDSource ≠ IDSourceProvider ∧
    atoi animePlanetID.IDRaw = none := by
  refine ⟨rfl, by decide, rfl⟩

/-- C7 (amended): `Validate` succeeds only when the title is non-empty,
there is at least one author, the start date is non-zero and the status is
non-empty; and every ID accepted by `ID.validate` has a non-empty code
and, unless its source is the content provider itself or AnimePlanet, a
raw value parsing as a positive integer (an AnimePlanet raw value need
only be non-empty). -/
theorem C7_validate_necessary (m : MetadataRecord) (id : ID)
    (hm : Validate (some m) = .ok ())
    (hid : id.validate = .ok ()) :
    (m.title ≠ "" ∧ m.authors ≠ [] ∧ m.startDate ≠ ⟨0, 0, 0⟩ ∧ m.status ≠ "") ∧
    (id.IDCode ≠ "" ∧
      (id.IDSource ≠ IDSourceProvider → id.IDSource ≠ IDSourceAnimePlanet →
        ∃ n : Int, atoi id.IDRaw = some n ∧ 1 ≤ n) ∧
      (id.IDSource = IDSourceAnimePlanet → id.IDRaw ≠ "")) := by
  constructor
  · simp only [Validate] at hm
    by_cases hstr : m.str = ""
    · rw [if_pos hstr] at hm; exact Except.noConfusion hm
    rw [if_neg hstr] at hm
    by_cases htitle : m.title = ""
    · rw [if_pos htitle] at hm; exact Except.noConfusion hm
    rw [if_neg htitle] at hm
    by_cases hauth : m.authors.length = 0
    · rw [if_pos hauth] at hm; exact Except.noConfusion hm
    rw [if_neg hauth] at hm
    by_cases hsd : m.startDate = ⟨0, 0, 0⟩
    · rw [if_pos hsd] at hm; exact Except.noConfusion hm
    rw [if_neg hsd] at hm
    by_cases hst : m.status = ""
    · rw [if_pos hst] at hm; exact Except.noConfusion hm
    exact ⟨htitle, fun h => hauth (by rw [h]; rfl), hsd, hst⟩
  · simp only [ID.validate] at hid
    by_cases hcode : id.IDCode = ""
    · rw [if_pos hcode] at hid; exact Except.noConfusion hid
    rw [if_neg hcode] at hid
    refine ⟨hcode, ?_, ?_⟩
    · intro hprov hap
      by_cases hzero : id.IDSource = 0
      · rw [if_pos hzero] at hid; exact Except.noConfusion hid
      rw [if_neg hzero, if_neg hprov] at hid
      by_cases hnum : id.IDSource = IDSourceAnilist ∨ id.IDSource = IDSourceMyAnimeList
          ∨ id.IDSource = IDSourceKitsu ∨ id.IDSource = IDSourceMangaUpdates
      · rw [if_pos hnum] at hid
        rcases h : atoi id.IDRaw with _ | n
        · rw [h] at hid; exact Except.noConfusion hid
        · rw [h] at hid
          dsimp only at hid
          refine ⟨n, rfl, ?_⟩
          by_contra hlt
          rw [if_pos (by omega : n < 1)] at hid
          exact Except.noConfusion hid
      · rw [if_neg hnum, if_neg hap] at hid
        exact Except.noConfusion hid
    · intro hap hraw
      have hzero : id.IDSource ≠ 0 := by rw [hap]; decide
      have hprov : id.IDSource ≠ IDSourceProvider := by rw [hap]; decide
      have hnum : ¬(id.IDSource = IDSourceAnilist ∨ id.IDSource = IDSourceMyAnimeList
          ∨ id.IDSource = IDSourceKitsu ∨ id.IDSource = IDSourceMangaUpdates) := by
        rw [hap]; decide
      rw [if_neg hzero, if_neg hprov, if_neg hnum, if_pos hap, if_pos hraw] at hid
      exact Except.noConfusion hid

/-- C7 witness: a concrete valid metadata record and a concrete accepted
Anilist ID satisfy the amended conclusions. -/
theorem C7_validate_necessary_witness :
    ({ str := "Berserk (1989)", title := "Berserk", authors := ["Kentaro Miura"],
       startDate := ⟨1989, 8, 25⟩, status := StatusReleasing,
       id := { IDRaw := "7", IDSource := IDSourceProvider, IDCode := "mangasee" },
       extraIDs := [] } : MetadataRecord).title ≠ "" ∧
    (∃ n : Int, atoi ({ IDRaw := "42", IDSource := IDSourceAnilist, IDCode := "al" } : ID).IDRaw
        = some n ∧ 1 ≤ n) := by
  have h := C7_validate_necessary
    { str := "Berserk (1989)", title := "Berserk", authors := ["Kentaro Miura"],
      startDate := ⟨1989, 8, 25⟩, status := StatusReleasing,
      id := { IDRaw := "7", IDSource := IDSourceProvider, IDCode := "mangasee" },
      extraIDs := [] }
    { IDRaw := "42", IDSource := IDSourceAnilist, IDCode := "al" }
    rfl rfl
  exact ⟨h.1.1, h.2.2.1 (by decide) (by decide)⟩

/-- C9: `Title()` resolves the title with priority English → Romaji →
Native, and on the concrete record with an empty English title, Romaji
"Berserk" and Native "ベルセルク" it returns "Berserk". -/
theorem C9_title_priority (m : Mangadata.Metadata) :
    (m.EnglishTitle ≠ "" → m.Title = m.EnglishTitle) ∧
    (m.EnglishTitle = "" → m.RomajiTitle ≠ "" → m.Title = m.RomajiTitle) ∧
    (m.EnglishTitle = "" → m.RomajiTitle = "" → m.Title = m.NativeTitle) ∧
    Mangadata.Metadata.Title ⟨"", "Berserk", "ベルセルク"⟩ = "Berserk" := by
  refine ⟨?_, ?_, ?_, by decide⟩
  · intro h; simp [Mangadata.Metadata.Title, h]
  · intro h1 h2; simp [Mangadata.Metadata.Title, h1, h2]
  · intro h1 h2; simp [Mangadata.Metadata.Title, h1, h2]

/-- C9 witness: the Berserk scenario, obtained by applying the priority
theorem at the concrete record and discharging its hypotheses. -/
theorem C9_title_priority_witness :
    Mangadata.Metadata.Title ⟨"", "Berserk", "ベルセルク"⟩ = "Berserk" := by
  have h := C9_title_priority ⟨"", "Berserk", "ベルセルク"⟩
  exact (h.2.1 rfl (by decide)).trans rfl

end Libmangal
